import Mathlib

/-!
Verification of core span/layer algorithms of the estnltk repository.

The definitions below are shallow embeddings of the Python source:

* `insert_span`        — `CompoundTokenTagger._insert_span`
                         (src/estnltk/taggers/text_segmentation/compound_token_tagger.py,
                          lines 599-623);
* `get_covered_tokens` — `CompoundTokenTagger._get_covered_tokens` (same file, lines 554-579);
* `resolve_conflicts`  — modelled from the spec (source not in the repository snapshot);
* further sections embed the tokenization-hint sweep, the custom-abbreviation
  builder, the hyphenation state machine, the `excerpt` document splitter and
  (spec-modelled) the gap tagger.

Machine integers do not overflow in any of the embedded code paths (all offsets
are Python ints), so text positions are modelled as `Nat`.
-/

/-- Text span carrying only the fields `_insert_span` / `_get_covered_tokens`
inspect: its start and end offsets (half-open interval). -/
structure TSpan where
  start : Nat
  stop : Nat
deriving DecidableEq, Repr

/-- Ascending `(start, end)` lexicographic order on spans, the order the
spec's `insert_sorted` is claimed to maintain. -/
def lexLe (a b : TSpan) : Prop :=
  a.start < b.start ∨ (a.start = b.start ∧ a.stop ≤ b.stop)

instance (a b : TSpan) : Decidable (lexLe a b) := by
  unfold lexLe; infer_instance

/-- List sorted ascending by `(start, end)`. -/
def sortedLex (l : List TSpan) : Prop := l.Pairwise lexLe

instance (l : List TSpan) : Decidable (sortedLex l) := by
  unfold sortedLex; exact List.instDecidablePairwise l

/-- Loop body of `CompoundTokenTagger._insert_span`: walks the list with the
running `is_duplicate` flag exactly as the Python `while` loop does.  When the
condition `span.end <= spans[i].start` first holds and insertion is not blocked
by `discard_duplicate and is_duplicate`, the span is spliced in (the Python
`break`); otherwise the walk continues, and at the end of the list the span is
appended unless blocked. -/
def insertGo (s : TSpan) (dd : Bool) : List TSpan → Bool → List TSpan
  | [], isDup => if !dd || (dd && !isDup) then [s] else []
  | x :: xs, isDup =>
    let isDup' := (s.start == x.start && s.stop == x.stop) || isDup
    if s.stop ≤ x.start then
      if !dd || (dd && !isDup') then s :: x :: xs
      else x :: insertGo s dd xs isDup'
    else x :: insertGo s dd xs isDup'

/-- Unfolding equation for one step of the `_insert_span` walk. -/
theorem insertGo_cons (s : TSpan) (dd : Bool) (x : TSpan) (xs : List TSpan) (d : Bool) :
    insertGo s dd (x :: xs) d =
      if s.stop ≤ x.start then
        if !dd || (dd && !((s.start == x.start && s.stop == x.stop) || d)) then s :: x :: xs
        else x :: insertGo s dd xs ((s.start == x.start && s.stop == x.stop) || d)
      else x :: insertGo s dd xs ((s.start == x.start && s.stop == x.stop) || d) := rfl

/-- Shallow embedding of `CompoundTokenTagger._insert_span` (the Python
function mutates `spans` in place; here the updated list is returned).  The
`is_duplicate` flag starts out `False`. -/
def insert_span (s : TSpan) (spans : List TSpan) (dd : Bool) : List TSpan :=
  insertGo s dd spans false

/-- Shallow embedding of `CompoundTokenTagger._get_covered_tokens`: the
`if`/`elif` chain over the two strictness flags, appending a span when the
selected boundary test holds.  Note that no branch handles
`left_strict = right_strict = False`. -/
def get_covered_tokens (start stop : Nat) (leftStrict rightStrict : Bool) :
    List TSpan → List TSpan
  | [] => []
  | span :: rest =>
    let keep :=
      if !leftStrict && rightStrict then
        start ≤ span.stop && span.stop ≤ stop
      else if leftStrict && !rightStrict then
        start ≤ span.start && span.start ≤ stop
      else if leftStrict && rightStrict then
        start ≤ span.start && span.stop ≤ stop
      else
        false
    if keep then span :: get_covered_tokens start stop leftStrict rightStrict rest
    else get_covered_tokens start stop leftStrict rightStrict rest

/-! Helper lemmas for `insert_span`. -/

/-- Once `discard_duplicate` is set and a duplicate has been seen, the walk
changes nothing. -/
theorem insertGo_blocked (s : TSpan) (xs : List TSpan) :
    insertGo s true xs true = xs := by
  induction xs with
  | nil => simp [insertGo]
  | cons x xs ih =>
    rw [insertGo_cons]
    simp only [Bool.or_true, Bool.not_true, Bool.and_false, Bool.or_self]
    split <;> simp [ih]

/-- Every element of the result is the new span or an element of the input. -/
theorem insertGo_subset (s : TSpan) (dd : Bool) (xs : List TSpan) (d : Bool) :
    ∀ e ∈ insertGo s dd xs d, e = s ∨ e ∈ xs := by
  induction xs generalizing d with
  | nil =>
    intro e he
    simp only [insertGo] at he
    split at he <;> simp_all
  | cons x xs ih =>
    intro e he
    rw [insertGo_cons] at he
    split at he
    · split at he
      · rcases List.mem_cons.mp he with h | h
        · exact Or.inl h
        · exact Or.inr h
      · rcases List.mem_cons.mp he with h | h
        · exact Or.inr (by simp [h])
        · rcases ih _ e h with h' | h'
          · exact Or.inl h'
          · exact Or.inr (List.mem_cons_of_mem _ h')
    · rcases List.mem_cons.mp he with h | h
      · exact Or.inr (by simp [h])
      · rcases ih _ e h with h' | h'
        · exact Or.inl h'
        · exact Or.inr (List.mem_cons_of_mem _ h')

/-- Spans are well-formed (`start ≤ end`). -/
def wfSpan (a : TSpan) : Prop := a.start ≤ a.stop

/-- Disjoint chain: each span ends at or before the next begins. -/
def chainLe (a b : TSpan) : Prop := a.stop ≤ b.start

theorem lexLe_of_chain {a b : TSpan} (ha : wfSpan a) (hb : wfSpan b)
    (h : chainLe a b) : lexLe a b := by
  unfold wfSpan at ha hb
  unfold chainLe at h
  rcases Nat.lt_or_ge a.start b.start with h' | h'
  · exact Or.inl h'
  · have h1 : a.start ≤ b.start := le_trans ha h
    have h2 : a.start = b.start := le_antisymm h1 h'
    refine Or.inr ⟨h2, ?_⟩
    have : b.start ≤ a.start := h'
    have h3 : a.stop ≤ a.start := le_trans h (h2 ▸ le_refl _)
    exact le_trans h3 (h2 ▸ hb)

/-- With `discard_duplicate` set and the new span already present (under the
chain hypotheses), the walk returns the list unchanged. -/
theorem insertGo_dup_mem (s : TSpan) (hs : wfSpan s) :
    ∀ (xs : List TSpan), (∀ a ∈ xs, wfSpan a) → xs.Pairwise chainLe →
    s ∈ xs → ∀ d, insertGo s true xs d = xs := by
  intro xs
  induction xs with
  | nil => intro _ _ h; cases h
  | cons x xs ih =>
    intro hwf hch hmem d
    by_cases heq : s = x
    · subst heq
      rw [insertGo_cons]
      simp only [beq_self_eq_true, Bool.and_self, Bool.true_or, Bool.not_true,
        Bool.and_false, Bool.or_self, Bool.not_false]
      split <;> simp [insertGo_blocked]
    · have hmem' : s ∈ xs := by
        rcases List.mem_cons.mp hmem with h | h
        · exact absurd h heq
        · exact h
      have hchx : chainLe x s := (List.pairwise_cons.mp hch).1 s hmem'
      have hxwf : wfSpan x := hwf x (List.mem_cons_self x xs)
      have hnotle : ¬ s.stop ≤ x.start := by
        intro hle
        -- s.stop ≤ x.start ≤ x.stop ≤ s.start ≤ s.stop forces s = x
        apply heq
        have h1 : s.start = x.start := by
          unfold chainLe at hchx; unfold wfSpan at hs hxwf; omega
        have h2 : s.stop = x.stop := by
          unfold chainLe at hchx; unfold wfSpan at hs hxwf; omega
        cases s; cases x
        simp_all
      rw [insertGo_cons, if_neg hnotle]
      congr 1
      exact ih (fun a ha => hwf a (List.mem_cons_of_mem _ ha))
        (List.pairwise_cons.mp hch).2 hmem' _

instance (a b : TSpan) : Decidable (chainLe a b) := by
  unfold chainLe; infer_instance

instance (a : TSpan) : Decidable (wfSpan a) := by
  unfold wfSpan; infer_instance

theorem lexLe_refl (a : TSpan) : lexLe a a := Or.inr ⟨rfl, le_refl _⟩

/-- A well-formed disjoint chain is sorted by `(start, end)`. -/
theorem sortedLex_of_chain {l : List TSpan} (hwf : ∀ a ∈ l, wfSpan a)
    (hch : l.Pairwise chainLe) : sortedLex l :=
  List.Pairwise.imp_of_mem (fun ha hb h => lexLe_of_chain (hwf _ ha) (hwf _ hb) h) hch

/-- When insertion is not blocked by duplicate discarding, the walk inserts the
new span and (under the chain hypotheses) keeps the list sorted. -/
theorem insertGo_inserts (s : TSpan) (hs : wfSpan s) (dd : Bool) :
    ∀ (xs : List TSpan) (d : Bool), (∀ a ∈ xs, wfSpan a) → xs.Pairwise chainLe →
    (∀ e ∈ xs, s.stop ≤ e.start ∨ e.stop ≤ s.start ∨ s = e) →
    (dd = false ∨ (s ∉ xs ∧ d = false)) →
    s ∈ insertGo s dd xs d ∧ sortedLex (insertGo s dd xs d) := by
  intro xs
  induction xs with
  | nil =>
    intro d _ _ _ hcond
    have : insertGo s dd [] d = [s] := by
      rcases hcond with h | ⟨_, h⟩
      · subst h; simp [insertGo]
      · subst h; cases dd <;> simp [insertGo]
    rw [this]
    exact ⟨List.mem_singleton_self s, List.pairwise_singleton _ _⟩
  | cons x xs ih =>
    intro d hwf hch hdisj hcond
    have hxwf : wfSpan x := hwf x (List.mem_cons_self x xs)
    have hxs_wf : ∀ a ∈ xs, wfSpan a := fun a ha => hwf a (List.mem_cons_of_mem _ ha)
    have hch' := (List.pairwise_cons.mp hch).2
    have hchx := (List.pairwise_cons.mp hch).1
    by_cases hle : s.stop ≤ x.start
    · -- insertion point reached; blocking cannot happen under the hypotheses
      have hfree : (!dd || (dd && !((s.start == x.start && s.stop == x.stop) || d))) = true := by
        rcases hcond with h | ⟨hnm, hd⟩
        · subst h; rfl
        · cases dd
          · rfl
          · have hne : s ≠ x := fun h => hnm (h ▸ List.mem_cons_self x xs)
            have : (s.start == x.start && s.stop == x.stop) = false := by
              by_contra hbe
              apply hne
              have := Bool.and_eq_true_iff.mp (Bool.of_not_eq_false hbe)
              cases s; cases x
              simp_all
            subst hd
            simp [this]
      rw [insertGo_cons, if_pos hle, if_pos hfree]
      constructor
      · exact List.mem_cons_self s _
      · -- s :: x :: xs is sorted
        refine List.pairwise_cons.mpr ⟨?_, sortedLex_of_chain hwf hch⟩
        intro e he
        rcases List.mem_cons.mp he with h | h
        · exact h ▸ lexLe_of_chain hs hxwf hle
        · have hxe : chainLe x e := hchx e h
          have : chainLe s e := by
            unfold chainLe at hxe ⊢
            unfold wfSpan at hxwf
            omega
          exact lexLe_of_chain hs (hxs_wf e h) this
    · -- walk past x
      have hxles : lexLe x s := by
        rcases hdisj x (List.mem_cons_self x xs) with h | h | h
        · exact absurd h hle
        · exact lexLe_of_chain hxwf hs h
        · exact h ▸ lexLe_refl x
      have hcond' : dd = false ∨ (s ∉ xs ∧ ((s.start == x.start && s.stop == x.stop) || d) = false) := by
        rcases hcond with h | ⟨hnm, hd⟩
        · exact Or.inl h
        · refine Or.inr ⟨fun h => hnm (List.mem_cons_of_mem _ h), ?_⟩
          have hne : s ≠ x := fun h => hnm (h ▸ List.mem_cons_self x xs)
          have : (s.start == x.start && s.stop == x.stop) = false := by
            by_contra hbe
            apply hne
            have := Bool.and_eq_true_iff.mp (Bool.of_not_eq_false hbe)
            cases s; cases x
            simp_all
          subst hd
          simp [this]
      have hrec := ih ((s.start == x.start && s.stop == x.stop) || d) hxs_wf hch'
        (fun e he => hdisj e (List.mem_cons_of_mem _ he)) hcond'
      rw [insertGo_cons, if_neg hle]
      constructor
      · exact List.mem_cons_of_mem _ hrec.1
      · refine List.pairwise_cons.mpr ⟨?_, hrec.2⟩
        intro e he
        rcases insertGo_subset s dd xs _ e he with h | h
        · exact h ▸ hxles
        · exact lexLe_of_chain hxwf (hxs_wf e h) (hchx e h)

/-- C3 counterexample: the list `[(5,6)]` is sorted ascending by `(start,end)`,
yet inserting the overlapping span `(0,10)` appends it at the back, producing
the unsorted list `[(5,6),(0,10)]`; `_insert_span` compares `span.end` with
`spans[i].start` (a disjointness test), not the `(start,end)` order, so the
claimed invariant fails for overlapping spans. -/
theorem insert_span_claim_counterexample :
    sortedLex [TSpan.mk 5 6] ∧
    insert_span ⟨0, 10⟩ [⟨5, 6⟩] false = [⟨5, 6⟩, ⟨0, 10⟩] ∧
    ¬ sortedLex [TSpan.mk 5 6, TSpan.mk 0 10] := by decide

/-- C3 (amended): for a well-formed pairwise-disjoint sorted list and a span
that is disjoint from (or identical to) every element, `_insert_span` keeps
the list sorted ascending by `(start,end)` and inserts the span; when
`discard_duplicate` is set and an identical span is already present, the list
is returned unchanged. -/
theorem insert_span_amended (s : TSpan) (spans : List TSpan) (dd : Bool)
    (hs : wfSpan s) (hwf : ∀ a ∈ spans, wfSpan a)
    (hch : spans.Pairwise chainLe)
    (hdisj : ∀ e ∈ spans, s.stop ≤ e.start ∨ e.stop ≤ s.start ∨ s = e) :
    (dd = true → s ∈ spans → insert_span s spans dd = spans)
    ∧ ((dd = false ∨ s ∉ spans) → s ∈ insert_span s spans dd)
    ∧ sortedLex (insert_span s spans dd) := by
  refine ⟨?_, ?_, ?_⟩
  · intro hdd hmem
    subst hdd
    exact insertGo_dup_mem s hs spans hwf hch hmem false
  · intro h
    rcases h with h | h
    · exact (insertGo_inserts s hs dd spans false hwf hch hdisj (Or.inl h)).1
    · exact (insertGo_inserts s hs dd spans false hwf hch hdisj (Or.inr ⟨h, rfl⟩)).1
  · by_cases hthere : dd = true ∧ s ∈ spans
    · rw [show insert_span s spans dd = spans from
        hthere.1 ▸ insertGo_dup_mem s hs spans hwf hch hthere.2 false]
      exact sortedLex_of_chain hwf hch
    · rcases Decidable.not_and_iff_or_not.mp hthere with h | h
      · have hdd : dd = false := by cases dd <;> simp_all
        exact (insertGo_inserts s hs dd spans false hwf hch hdisj (Or.inl hdd)).2
      · exact (insertGo_inserts s hs dd spans false hwf hch hdisj (Or.inr ⟨h, rfl⟩)).2

/-- Witness for the amended C3 theorem at a concrete input. -/
theorem insert_span_amended_witness :
    (true = true → TSpan.mk 3 4 ∈ [TSpan.mk 0 2, TSpan.mk 5 7] →
      insert_span ⟨3, 4⟩ [⟨0, 2⟩, ⟨5, 7⟩] true = [⟨0, 2⟩, ⟨5, 7⟩])
    ∧ ((true = false ∨ TSpan.mk 3 4 ∉ [TSpan.mk 0 2, TSpan.mk 5 7]) →
      TSpan.mk 3 4 ∈ insert_span ⟨3, 4⟩ [⟨0, 2⟩, ⟨5, 7⟩] true)
    ∧ sortedLex (insert_span ⟨3, 4⟩ [⟨0, 2⟩, ⟨5, 7⟩] true) :=
  insert_span_amended ⟨3, 4⟩ [⟨0, 2⟩, ⟨5, 7⟩] true (by decide) (by decide)
    (by decide) (by decide)

/-- C8 (amended): calling `_get_covered_tokens` with both strictness flags
loose silently returns the empty list for every span list: no branch of the
`if`/`elif` chain handles that flag combination, so no span is ever kept and
no error is raised. -/
theorem get_covered_tokens_both_loose (start stop : Nat) (spans : List TSpan) :
    get_covered_tokens start stop false false spans = [] := by
  induction spans with
  | nil => rfl
  | cons x xs ih => simp [get_covered_tokens, ih]

/-- C8 counterexample: with both flags loose the call does not fail and does
not keep everything — it silently returns `[]`, although the span `(2,3)`
lies fully inside the query range `[0,10]` (as the strict-strict mode shows). -/
theorem get_covered_tokens_claim_counterexample :
    get_covered_tokens 0 10 false false [TSpan.mk 2 3] = [] ∧
    get_covered_tokens 0 10 true true [TSpan.mk 2 3] = [TSpan.mk 2 3] := by decide

/-! Conflict resolution (`resolve_conflicts`).  The implementation is not among
the provided source files (only its caller in `CompoundTokenTagger._make_layer`
is), so it is modelled from the spec. -/

/-- Span record for conflict resolution: interval plus the value of the
optional priority attribute. -/
structure RSpan where
  start : Nat
  stop : Nat
  priority : Int
deriving DecidableEq, Repr

/-- Conflict-resolving strategy: survivors have maximal (`MAX`) or minimal
(`MIN`) span length. -/
inductive CRStrategy
  | MAX
  | MIN
deriving DecidableEq, Repr

/-- Span length used for the strategy comparison. -/
def spanLength (s : RSpan) : Int := (s.stop : Int) - (s.start : Int)

/-- Ranking key of a span: better spans have smaller keys.  For `MAX` longer
spans rank first, for `MIN` shorter ones; ties are broken by the priority
attribute ascending when one is given. -/
def sortKeyRC (strat : CRStrategy) (usePr : Bool) (s : RSpan) : Int × Int :=
  (match strat with
   | CRStrategy.MAX => -spanLength s
   | CRStrategy.MIN => spanLength s,
   if usePr then s.priority else 0)

/-- Two half-open spans overlap. -/
def overlapsB (a b : RSpan) : Bool :=
  decide (a.start < b.stop) && decide (b.start < a.stop)

/-- A candidate is compatible with an already-selected survivor when they do
not overlap, or (`keep_equal`) when they tie exactly in length and priority. -/
def compatB (strat : CRStrategy) (usePr ke : Bool) (a b : RSpan) : Bool :=
  !(overlapsB a b) ||
    (ke && decide (sortKeyRC strat usePr a = sortKeyRC strat usePr b))

/-- Processing order on index-tagged spans: by ranking key, ties by original
position (so the first encountered of an exact tie wins). -/
def procLE (strat : CRStrategy) (usePr : Bool) (a b : Nat × RSpan) : Bool :=
  let ka := sortKeyRC strat usePr a.2
  let kb := sortKeyRC strat usePr b.2
  decide (ka.1 < kb.1) ||
    (decide (ka.1 = kb.1) &&
      (decide (ka.2 < kb.2) || (decide (ka.2 = kb.2) && decide (a.1 ≤ b.1))))

/-- Greedy survivor selection: walk the candidates in processing order and
keep a candidate iff it is compatible with every already-kept survivor. -/
def conflictGreedy (strat : CRStrategy) (usePr ke : Bool) :
    List (Nat × RSpan) → List (Nat × RSpan) → List (Nat × RSpan)
  | kept, [] => kept
  | kept, s :: rest =>
    if kept.all (fun k => compatB strat usePr ke k.2 s.2) then
      conflictGreedy strat usePr ke (kept ++ [s]) rest
    else conflictGreedy strat usePr ke kept rest

/-- Modelled from the spec: `resolve_conflicts(layer, strategy, priority_attr,
keep_equal)` — the implementation lives in `estnltk.layer_operations`, which is
not among the provided source files (only its call site in
`CompoundTokenTagger._make_layer` is).  For mutually overlapping spans,
survivors are selected by the strategy comparing span length, ties broken by
the priority attribute ascending when given; with `keep_equal = false` an
exact tie keeps only the first encountered, with `true` both are kept.  The
surviving spans are returned in their original layer order. -/
def resolve_conflicts (strat : CRStrategy) (usePr ke : Bool) (L : List RSpan) :
    List RSpan :=
  let idx := L.enum
  let sorted := idx.mergeSort (procLE strat usePr)
  let kept := conflictGreedy strat usePr ke [] sorted
  let keptIdx := kept.map Prod.fst
  (idx.filter (fun p => decide (p.1 ∈ keptIdx))).map Prod.snd

/-- Compatibility as a proposition. -/
def CompatP (strat : CRStrategy) (usePr ke : Bool) (a b : RSpan) : Prop :=
  compatB strat usePr ke a b = true

theorem compatB_symm (strat : CRStrategy) (usePr ke : Bool) (a b : RSpan) :
    compatB strat usePr ke a b = compatB strat usePr ke b a := by
  unfold compatB overlapsB
  rw [Bool.and_comm]
  congr 2
  exact decide_eq_decide.mpr ⟨Eq.symm, Eq.symm⟩

theorem CompatP_symm (strat : CRStrategy) (usePr ke : Bool) {a b : RSpan}
    (h : CompatP strat usePr ke a b) : CompatP strat usePr ke b a := by
  unfold CompatP at h ⊢
  rw [compatB_symm]
  exact h

/-- The greedy selection only ever keeps mutually compatible survivors. -/
theorem conflictGreedy_pairwise (strat : CRStrategy) (usePr ke : Bool) :
    ∀ (rest kept : List (Nat × RSpan)),
    kept.Pairwise (fun p q => CompatP strat usePr ke p.2 q.2) →
    (conflictGreedy strat usePr ke kept rest).Pairwise
      (fun p q => CompatP strat usePr ke p.2 q.2) := by
  intro rest
  induction rest with
  | nil => intro kept h; exact h
  | cons s rest ih =>
    intro kept h
    simp only [conflictGreedy]
    split
    · rename_i hall
      apply ih
      rw [List.pairwise_append]
      refine ⟨h, List.pairwise_singleton _ _, ?_⟩
      intro a ha b hb
      have hb' : b = s := List.mem_singleton.mp hb
      subst hb'
      exact List.all_eq_true.mp hall a ha
    · exact ih kept h

/-- Everything the greedy selection returns comes from its two inputs. -/
theorem conflictGreedy_subset (strat : CRStrategy) (usePr ke : Bool) :
    ∀ (rest kept : List (Nat × RSpan)) (p : Nat × RSpan),
    p ∈ conflictGreedy strat usePr ke kept rest → p ∈ kept ∨ p ∈ rest := by
  intro rest
  induction rest with
  | nil => intro kept p h; exact Or.inl h
  | cons s rest ih =>
    intro kept p h
    simp only [conflictGreedy] at h
    split at h
    · rcases ih _ p h with h' | h'
      · rcases List.mem_append.mp h' with h'' | h''
        · exact Or.inl h''
        · exact Or.inr (by simp [List.mem_singleton.mp h''])
      · exact Or.inr (List.mem_cons_of_mem _ h')
    · rcases ih _ p h with h' | h'
      · exact Or.inl h'
      · exact Or.inr (List.mem_cons_of_mem _ h')

/-- On a list of pairwise-compatible candidates the greedy selection keeps
everything. -/
theorem conflictGreedy_keep_all (strat : CRStrategy) (usePr ke : Bool) :
    ∀ (rest kept : List (Nat × RSpan)),
    (∀ k ∈ kept, ∀ s ∈ rest, CompatP strat usePr ke k.2 s.2) →
    rest.Pairwise (fun p q => CompatP strat usePr ke p.2 q.2) →
    conflictGreedy strat usePr ke kept rest = kept ++ rest := by
  intro rest
  induction rest with
  | nil => intro kept _ _; simp [conflictGreedy]
  | cons s rest ih =>
    intro kept h1 h2
    have hall : kept.all (fun k => compatB strat usePr ke k.2 s.2) = true :=
      List.all_eq_true.mpr fun k hk => h1 k hk s (List.mem_cons_self s rest)
    simp only [conflictGreedy, if_pos hall]
    rw [ih (kept ++ [s]) ?_ (List.pairwise_cons.mp h2).2]
    · simp
    · intro k hk s' hs'
      rcases List.mem_append.mp hk with h | h
      · exact h1 k h s' (List.mem_cons_of_mem _ hs')
      · rw [List.mem_singleton.mp h]
        exact (List.pairwise_cons.mp h2).1 s' hs'

/-- The output of `resolve_conflicts` is pairwise compatible: any two of its
spans either do not overlap, or are an exact tie kept by `keep_equal`. -/
theorem resolve_conflicts_pairwise (strat : CRStrategy) (usePr ke : Bool)
    (L : List RSpan) :
    (resolve_conflicts strat usePr ke L).Pairwise (CompatP strat usePr ke) := by
  simp only [resolve_conflicts]
  set idx := L.enum with hidx
  set sorted := idx.mergeSort (procLE strat usePr) with hsorted
  set kept := conflictGreedy strat usePr ke [] sorted with hkept
  have kp : kept.Pairwise (fun p q => CompatP strat usePr ke p.2 q.2) :=
    conflictGreedy_pairwise strat usePr ke sorted [] (List.Pairwise.nil)
  have ksym : Symmetric (fun p q : Nat × RSpan => CompatP strat usePr ke p.2 q.2) :=
    fun p q h => CompatP_symm strat usePr ke h
  have kset : ∀ p ∈ kept, ∀ q ∈ kept, p ≠ q → CompatP strat usePr ke p.2 q.2 :=
    fun p hp q hq hne => List.Pairwise.forall ksym kp hp hq hne
  have hnodupfst : (idx.map Prod.fst).Nodup := by
    rw [hidx, List.enum_map_fst]
    exact List.nodup_range _
  have hmemkept : ∀ p ∈ idx.filter (fun p => decide (p.1 ∈ kept.map Prod.fst)),
      p ∈ kept := by
    intro p hp
    have hp1 := (List.mem_filter.mp hp).1
    have hp2 : p.1 ∈ kept.map Prod.fst :=
      of_decide_eq_true (List.mem_filter.mp hp).2
    rcases List.mem_map.mp hp2 with ⟨q, hq, hq1⟩
    have hqidx : q ∈ idx := by
      rcases conflictGreedy_subset strat usePr ke sorted [] q hq with h | h
      · cases h
      · exact ((List.mergeSort_perm idx (procLE strat usePr)).mem_iff).mp h
    have : q = p := List.inj_on_of_nodup_map hnodupfst hqidx hp1 hq1
    exact this ▸ hq
  have hfstlt : (idx.filter (fun p => decide (p.1 ∈ kept.map Prod.fst))).Pairwise
      (fun p q : Nat × RSpan => p.1 < q.1) := by
    apply List.Pairwise.filter
    have : (idx.map Prod.fst).Pairwise (· < ·) := by
      rw [hidx, List.enum_map_fst]
      exact List.pairwise_lt_range _
    exact (List.pairwise_map).mp this
  rw [List.pairwise_map]
  refine List.Pairwise.imp_of_mem ?_ hfstlt
  intro p q hp hq hlt
  exact kset p (hmemkept p hp) q (hmemkept q hq)
    (fun h => absurd (congrArg Prod.fst h) (Nat.ne_of_lt hlt))

/-- A pairwise-compatible span list is a fixed point of `resolve_conflicts`. -/
theorem resolve_conflicts_fixed (strat : CRStrategy) (usePr ke : Bool)
    (O : List RSpan) (hO : O.Pairwise (CompatP strat usePr ke)) :
    resolve_conflicts strat usePr ke O = O := by
  simp only [resolve_conflicts]
  set idx := O.enum with hidx
  set sorted := idx.mergeSort (procLE strat usePr) with hsorted
  have hidxpw : idx.Pairwise (fun p q : Nat × RSpan => CompatP strat usePr ke p.2 q.2) := by
    apply (List.pairwise_map).mp
    rw [hidx, List.enum_map_snd]
    exact hO
  have hsortpw : sorted.Pairwise (fun p q : Nat × RSpan => CompatP strat usePr ke p.2 q.2) := by
    refine ((List.mergeSort_perm idx (procLE strat usePr)).pairwise_iff ?_).mpr hidxpw
    intro p q h
    exact CompatP_symm strat usePr ke h
  have hkeep : conflictGreedy strat usePr ke [] sorted = sorted := by
    rw [conflictGreedy_keep_all strat usePr ke sorted [] (by intro k hk; cases hk) hsortpw]
    simp
  rw [hkeep]
  have hfilter : idx.filter (fun p => decide (p.1 ∈ sorted.map Prod.fst)) = idx := by
    apply List.filter_eq_self.mpr
    intro p hp
    apply decide_eq_true
    apply List.mem_map_of_mem
    exact ((List.mergeSort_perm idx (procLE strat usePr)).mem_iff).mpr hp
  rw [hfilter, hidx, List.enum_map_snd]

/-- C2: `resolve_conflicts` is idempotent — applying it a second time to its
own output is a no-op, for every layer, strategy, priority-attribute choice
and `keep_equal` flag. -/
theorem resolve_conflicts_idempotent (strat : CRStrategy) (usePr ke : Bool)
    (L : List RSpan) :
    resolve_conflicts strat usePr ke (resolve_conflicts strat usePr ke L) =
      resolve_conflicts strat usePr ke L :=
  resolve_conflicts_fixed strat usePr ke _ (resolve_conflicts_pairwise strat usePr ke L)

/-! Token-sweep components of `CompoundTokenTagger._make_layer` and its
helpers: tokenization-hint application (lines 280-307), custom abbreviations
(`_try_to_add_custom_abbreviation`, lines 388-459) and the hyphenation state
machine (lines 309-343). -/

/-- Token of the input `tokens` layer: interval plus surface text. -/
structure Tok where
  start : Nat
  stop : Nat
  text : String
deriving DecidableEq, Repr

/-- Placeholder token used where the Python code would raise `IndexError`;
all theorems below keep indices in range. -/
def dummyTok : Tok := ⟨0, 0, ""⟩

/-- Scan of `_make_layer` lines 282-287: starting with `j = i`, remember the
last token whose end equals the hint's recorded end (`end_token_index = j`,
without breaking), and stop as soon as a token starts past the hint's end.
`j` is the absolute index of the head of the remaining token list. -/
def findEndGo (hintEnd : Nat) : List Tok → Nat → Option Nat → Option Nat
  | [], _, acc => acc
  | t :: rest, j, acc =>
    if t.stop = hintEnd then findEndGo hintEnd rest (j + 1) (some j)
    else if hintEnd < t.start then acc
    else findEndGo hintEnd rest (j + 1) acc

/-- The `end_token_index` computed for a hint starting at token `i`. -/
def findEndTokenIdx (tokens : List Tok) (hintEnd : Nat) (i : Nat) : Option Nat :=
  findEndGo hintEnd (tokens.drop i) i none

/-- Decision of `_make_layer` lines 288-296 for one tokenization hint keyed at
token `i`: the queued candidate's token index range, or `none` when no
candidate is queued.  The Python guard is the truthiness test
`if end_token_index:`, under which both `None` and the index `0` are falsy. -/
def hintCandidate (tokens : List Tok) (i : Nat) (hintEnd : Nat) : Option (Nat × Nat) :=
  match findEndTokenIdx tokens hintEnd i with
  | none => none
  | some k => if k = 0 then none else some (i, k)

/-- C5: the hint sweep drops a hint whose matching end token has index 0.  On
a token layer whose first token spans `(0,3)` and a hint recorded as ending at
3, the scan finds the matching token (index 0), yet no candidate is queued,
because `if end_token_index:` treats the index 0 like `None`.  The claim (and
the code's own intent, whose no-match sentinel is `None`) says a candidate
enveloping tokens 0..0 should be queued. -/
theorem hint_candidate_zero_index_bug :
    findEndTokenIdx [Tok.mk 0 3 "1.2"] 3 0 = some 0 ∧
    (Tok.mk 0 3 "1.2").stop = 3 ∧
    hintCandidate [Tok.mk 0 3 "1.2"] 0 3 = none ∧
    hintCandidate [Tok.mk 0 2 "ab", Tok.mk 2 3 "c"] 0 3 = some (0, 1) := by decide

/-- Character list of `raw_text[a:b]` (Python slice by character offsets). -/
def strSlice (s : String) (a b : Nat) : List Char := (s.data.drop a).take (b - a)

/-- Does the first list occur at the head of the second one. -/
def leadsList : List Char → List Char → Bool
  | [], _ => true
  | _ :: _, [] => false
  | c :: cs, d :: ds => c == d && leadsList cs ds

/-- Python substring containment `needle in hay` over character lists. -/
def containsSeq (needle : List Char) : List Char → Bool
  | [] => leadsList needle []
  | c :: rest => leadsList needle (c :: rest) || containsSeq needle rest

/-- Compound-token candidate: the enveloped token spans plus the `type` tuple
and the optional normalized string. -/
structure Cand where
  toks : List Tok
  ctype : List String
  normalized : Option String
deriving DecidableEq, Repr

/-- Start offset of a candidate (first enveloped token's start). -/
def candStart (c : Cand) : Nat := (c.toks.headD dummyTok).start

/-- End offset of a candidate (last enveloped token's end). -/
def candStop (c : Cand) : Nat := (c.toks.getLastD dummyTok).stop

/-- Shallow embedding of `CompoundTokenTagger._try_to_add_custom_abbreviation`
(lines 388-459): detect a custom abbreviation at `tokenId`, build a 1- or
2-token candidate — the 2-token form requires `tokenId + 1 < len(tokens) - 1`,
i.e. the following "." must not be the last token — discard it when a
forbidden separator occurs inside it, resolve precedence against the last
queued candidate, and return the updated candidate list. -/
def tryToAddCustomAbbreviation (customAbbreviations doNotJoinOnStrings : List String)
    (rawText : String) (tokens : List Tok) (tokenId : Nat) (lists : List Cand) :
    List Cand :=
  let token := (tokens.getD tokenId dummyTok).text
  if customAbbreviations.any (fun a => a == token) then
    let nextToken :=
      if tokenId + 1 < tokens.length - 1 then (tokens.getD (tokenId + 1) dummyTok).text
      else ""
    let spl : Cand :=
      if nextToken == "." then
        ⟨(tokens.drop tokenId).take 2, ["non_ending_abbreviation"], some (token ++ nextToken)⟩
      else
        ⟨(tokens.drop tokenId).take 1, ["non_ending_abbreviation"], none⟩
    if doNotJoinOnStrings.any
        (fun sep => containsSeq sep.data (strSlice rawText (candStart spl) (candStop spl))) then
      lists
    else
      match lists.getLast? with
      | none => lists ++ [spl]
      | some lastCompound =>
        if candStart lastCompound < candStart spl ∧ candStop spl < candStop lastCompound then
          lists
        else if candStop lastCompound = candStop spl ∧
            ¬ lastCompound.ctype.contains "non_ending_abbreviation" then
          lists.dropLast ++ [spl]
        else if candStop lastCompound = candStop spl ∧
            lastCompound.ctype.contains "non_ending_abbreviation" then
          lists
        else lists ++ [spl]
  else lists

/-- C6 counterexample: custom abbreviation "p" immediately followed by "." —
but the two are the last two tokens of the layer, so the guard
`token_id+1 < len(tokens)-1` never reads the ".", and only a 1-token
candidate is appended. -/
theorem custom_abbreviation_claim_counterexample :
    ([Tok.mk 0 1 "p", Tok.mk 1 2 "."].getD 1 dummyTok).text = "." ∧
    tryToAddCustomAbbreviation ["p"] [] "p." [Tok.mk 0 1 "p", Tok.mk 1 2 "."] 0 []
      = [Cand.mk [Tok.mk 0 1 "p"] ["non_ending_abbreviation"] none] := by decide

/-- C6 (amended): at a custom-abbreviation token (with no forbidden separators
configured and an empty candidate queue), the builder appends exactly one
candidate: it envelopes the abbreviation token together with the following
token when that token is the literal "." and is not the last token of the
layer (`token_id+1 < len(tokens)-1`), and the abbreviation token alone
otherwise — in particular alone when the abbreviation and the "." are the
last two tokens. -/
theorem custom_abbreviation_amended (abbrevs : List String) (rawText : String)
    (tokens : List Tok) (tid : Nat) (ht : tid < tokens.length)
    (habbr : (tokens.getD tid dummyTok).text ∈ abbrevs) :
    tryToAddCustomAbbreviation abbrevs [] rawText tokens tid [] =
      if tid + 1 < tokens.length - 1 ∧ (tokens.getD (tid + 1) dummyTok).text = "." then
        [Cand.mk [tokens.getD tid dummyTok, tokens.getD (tid + 1) dummyTok]
          ["non_ending_abbreviation"]
          (some ((tokens.getD tid dummyTok).text ++ (tokens.getD (tid + 1) dummyTok).text))]
      else
        [Cand.mk [tokens.getD tid dummyTok] ["non_ending_abbreviation"] none] := by
  have hfound : abbrevs.any (fun a => a == (tokens.getD tid dummyTok).text) = true :=
    List.any_eq_true.mpr ⟨_, habbr, beq_self_eq_true _⟩
  have htake1 : (tokens.drop tid).take 1 = [tokens.getD tid dummyTok] := by
    rw [List.drop_eq_getElem_cons ht, List.take_succ_cons, List.take_zero,
      List.getD_eq_getElem tokens dummyTok ht]
  simp only [tryToAddCustomAbbreviation, hfound, if_true, List.any_nil,
    Bool.false_eq_true, if_false, List.getLast?_nil, List.nil_append]
  by_cases hlt : tid + 1 < tokens.length - 1
  · have ht1 : tid + 1 < tokens.length := by omega
    have htake2 : (tokens.drop tid).take 2 =
        [tokens.getD tid dummyTok, tokens.getD (tid + 1) dummyTok] := by
      rw [List.drop_eq_getElem_cons ht, List.take_succ_cons,
        List.drop_eq_getElem_cons ht1, List.take_succ_cons, List.take_zero,
        List.getD_eq_getElem tokens dummyTok ht, List.getD_eq_getElem tokens dummyTok ht1]
    by_cases hdot : (tokens.getD (tid + 1) dummyTok).text = "."
    · have : ((tokens.getD (tid + 1) dummyTok).text == ".") = true := beq_iff_eq.mpr hdot
      simp only [if_pos hlt, this, if_true, htake2, if_pos (And.intro hlt hdot)]
    · have : ((tokens.getD (tid + 1) dummyTok).text == ".") = false :=
        beq_eq_false_iff_ne.mpr hdot
      simp only [if_pos hlt, this, Bool.false_eq_true, if_false, htake1]
      rw [if_neg (fun hc => hdot hc.2)]
  · have hne : (("" : String) == ".") = false := by decide
    simp only [if_neg hlt, hne, Bool.false_eq_true, if_false, htake1]
    rw [if_neg (fun hc => hlt hc.1)]

/-- Witness for the amended C6 theorem: with a token after the ".", the
2-token candidate is built. -/
theorem custom_abbreviation_amended_witness :
    tryToAddCustomAbbreviation ["p"] [] "p. x"
        [Tok.mk 0 1 "p", Tok.mk 1 2 ".", Tok.mk 3 4 "x"] 0 [] =
      [Cand.mk [Tok.mk 0 1 "p", Tok.mk 1 2 "."] ["non_ending_abbreviation"] (some "p.")] := by
  have h := custom_abbreviation_amended ["p"] "p. x"
    [Tok.mk 0 1 "p", Tok.mk 1 2 ".", Tok.mk 3 4 "x"] 0 (by decide) (by decide)
  simpa using h

/-- Hyphenation-machine status, mirroring the Python string values: `hyphen`
is `'-'`, `second` is `'second'`, `ended` is `'end'`; the Python `None` is
`Option.none`. -/
inductive HypStatus
  | hyphen
  | second
  | ended
deriving DecidableEq, Repr

/-- State threaded through the token sweep of `_make_layer` for hyphenation
correction: the machine status, `hyphenation_start`, `last_end` (end offset of
the previous token, `None` before the first), and the emitted compound runs as
`(first token index, one past last token index)` pairs. -/
structure HypState where
  status : Option HypStatus
  hyphenationStart : Nat
  lastEnd : Option Nat
  compounds : List (Nat × Nat)
deriving DecidableEq, Repr

/-- Does the character list contain a letter.  Mirrors `_letter_pattern`
(the Estonian LETTERS character class, modelled as `Char.isAlpha`). -/
def containsLetter (cs : List Char) : Bool := cs.any Char.isAlpha

/-- One iteration of the hyphenation-correction part of the token sweep
(`_make_layer` lines 309-343) for the token at index `i`: the three-branch
status update, the emission/reset step (`status == 'end'` with a run of at
least two tokens, kept only when the snippet contains a letter), and the
unconditional `last_end = token_span.end`.  The emitted compound's
`normalized` attribute is produced by the external token-normalizer
collaborator and is not part of the recorded run. -/
def hypStep (tagHyp : Bool) (rawText : String) (tokens : List Tok)
    (st : HypState) (i : Nat) : HypState :=
  let tok := tokens.getD i dummyTok
  let st1 :=
    if tagHyp then
      let upd :=
        match st.status with
        | none =>
          if st.lastEnd = some tok.start ∧ tok.text = "-" then
            { st with status := some HypStatus.hyphen }
          else
            { st with hyphenationStart := i }
        | some HypStatus.hyphen =>
          if st.lastEnd = some tok.start then { st with status := some HypStatus.second }
          else { st with status := some HypStatus.ended }
        | some HypStatus.second =>
          if st.lastEnd = some tok.start ∧ tok.text = "-" then
            { st with status := some HypStatus.hyphen }
          else { st with status := some HypStatus.ended }
        | some HypStatus.ended => st
      if upd.status = some HypStatus.ended ∧ upd.hyphenationStart + 1 < i then
        let hypStart := (tokens.getD upd.hyphenationStart dummyTok).start
        let hypEnd := (tokens.getD (i - 1) dummyTok).stop
        let upd2 :=
          if containsLetter (strSlice rawText hypStart hypEnd) then
            { upd with compounds := upd.compounds ++ [(upd.hyphenationStart, i)] }
          else upd
        { upd2 with status := none, hyphenationStart := i }
      else upd
    else st
  { st1 with lastEnd := some tok.stop }

/-- Initial sweep state (`hyphenation_status = None`, `last_end = None`;
`hyphenation_start` is first assigned on the first token, so its initial
value is immaterial and fixed to 0). -/
def hypInit : HypState := ⟨none, 0, none, []⟩

/-- State of the hyphenation sweep after processing the first `n` tokens. -/
def hypRunUpto (tagHyp : Bool) (rawText : String) (tokens : List Tok) (n : Nat) :
    HypState :=
  (List.range n).foldl (hypStep tagHyp rawText tokens) hypInit

theorem hypRunUpto_succ (tagHyp : Bool) (rawText : String) (tokens : List Tok)
    (n : Nat) :
    hypRunUpto tagHyp rawText tokens (n + 1) =
      hypStep tagHyp rawText tokens (hypRunUpto tagHyp rawText tokens n) n := by
  unfold hypRunUpto
  rw [List.range_succ, List.foldl_append]
  rfl

/-- C7 counterexample: on adjacent tokens `a`, `-`, `-`, `b` the machine is in
`saw_hyphen` after the first hyphen, the next adjacent token is itself a
`"-"`, and the machine nevertheless advances to `saw_second_token` — the
`'-'` branch checks only adjacency (`last_end == token_span.start`), not the
token text. -/
theorem hyphenation_claim_counterexample :
    (hypRunUpto true "a--b"
        [Tok.mk 0 1 "a", Tok.mk 1 2 "-", Tok.mk 2 3 "-", Tok.mk 3 4 "b"] 2).status
      = some HypStatus.hyphen ∧
    ([Tok.mk 0 1 "a", Tok.mk 1 2 "-", Tok.mk 2 3 "-", Tok.mk 3 4 "b"].getD 2 dummyTok).text
      = "-" ∧
    ([Tok.mk 0 1 "a", Tok.mk 1 2 "-", Tok.mk 2 3 "-", Tok.mk 3 4 "b"].getD 1 dummyTok).stop
      = ([Tok.mk 0 1 "a", Tok.mk 1 2 "-", Tok.mk 2 3 "-", Tok.mk 3 4 "b"].getD 2 dummyTok).start ∧
    (hypRunUpto true "a--b"
        [Tok.mk 0 1 "a", Tok.mk 1 2 "-", Tok.mk 2 3 "-", Tok.mk 3 4 "b"] 3).status
      = some HypStatus.second := by decide

/-- C7 (amended): from `saw_hyphen`, processing the next token advances the
machine to `saw_second_token` exactly when that token is immediately adjacent
(`last_end == token_span.start`) — regardless of whether the token is itself
a hyphen; without adjacency the run ends instead. -/
theorem hyphen_to_second_amended (rawText : String) (tokens : List Tok) (n : Nat)
    (hst : (hypRunUpto true rawText tokens n).status = some HypStatus.hyphen) :
    ((hypRunUpto true rawText tokens (n + 1)).status = some HypStatus.second ↔
      (hypRunUpto true rawText tokens n).lastEnd = some ((tokens.getD n dummyTok).start)) := by
  rw [hypRunUpto_succ]
  set st := hypRunUpto true rawText tokens n with hstdef
  simp only [hypStep, hst, if_true]
  by_cases hadj : st.lastEnd = some ((tokens.getD n dummyTok).start)
  · simp only [if_pos hadj]
    split
    · rename_i hcond
      exact absurd hcond (by simp)
    · simp [hadj]
  · simp only [if_neg hadj]
    split
    · rename_i hcond
      constructor
      · intro h
        split at h <;> simp_all
      · intro h
        exact absurd h hadj
    · simp only [hypStep]
      constructor
      · intro h
        simp at h
      · intro h
        exact absurd h hadj

/-- Witness for the amended C7 theorem: adjacent tokens `a`, `-`, `x` with
the machine in `saw_hyphen` before token 2. -/
theorem hyphen_to_second_amended_witness :
    (hypRunUpto true "a-x" [Tok.mk 0 1 "a", Tok.mk 1 2 "-", Tok.mk 2 3 "x"] 3).status
        = some HypStatus.second ↔
      (hypRunUpto true "a-x" [Tok.mk 0 1 "a", Tok.mk 1 2 "-", Tok.mk 2 3 "x"] 2).lastEnd
        = some (([Tok.mk 0 1 "a", Tok.mk 1 2 "-", Tok.mk 2 3 "x"].getD 2 dummyTok).start) :=
  hyphen_to_second_amended "a-x" [Tok.mk 0 1 "a", Tok.mk 1 2 "-", Tok.mk 2 3 "x"] 2
    (by decide)

/-! Document excerpting (`excerpt` in src/estnltk/layer_operations/splitting.py).
Python runtime errors are modelled explicitly: `NotImplementedError` raises in
the three rejected layer shapes, `NameError` for the read of the unbound local
variable `sp` in the enveloping branch (line 67), and `AttributeError` for a
`getattr` on a missing attribute.  Attribute values are modelled as `Nat`. -/

/-- Python error raised by the embedded `excerpt`. -/
inductive PyErr
  | notImplemented (msg : String)
  | nameError
  | attributeError
deriving DecidableEq, Repr

/-- Span of a layer, covering the shapes `excerpt` distinguishes: a plain
unambiguous span carries `attrs`; an ambiguous attached span carries the
parent span's interval and one attribute mapping per annotation (`annos`);
an enveloping span carries the component intervals of the enveloped layer. -/
structure MSpan where
  start : Nat
  stop : Nat
  attrs : List (String × Nat)
  annos : List (List (String × Nat))
  parentRef : Option (Nat × Nat)
  components : List (Nat × Nat)
deriving DecidableEq, Repr

/-- Layer: name, attribute schema, relation metadata and spans. -/
structure MLayer where
  name : String
  attributes : List String
  parent : Option String
  enveloping : Option String
  ambiguous : Bool
  spans : List MSpan
deriving DecidableEq, Repr

/-- Document: base text plus ordered layer list. -/
structure MText where
  text : String
  layers : List MLayer
deriving DecidableEq, Repr

/-- Key of the Python `map_spans` dict: old spans are identified by layer and
interval, annotation objects of ambiguous attached spans additionally by
their index. -/
inductive SpanKey
  | span (layer : String) (start stop : Nat)
  | anno (layer : String) (start stop : Nat) (idx : Nat)
deriving DecidableEq, Repr

/-- State threaded through `excerpt`'s layer loop: the `map_spans` dict (new
entries shadow older ones, hence consed at the front), the Python local
variable `sp` (bound only inside the ambiguous-attached branch), and the
layers of the new document built so far. -/
structure ExcState where
  mapSpans : List (SpanKey × (Nat × Nat))
  spState : Option (List (String × Nat))
  newLayers : List MLayer
deriving DecidableEq, Repr

/-- Lookup in `map_spans` (`dict.get`: `none` when absent). -/
def mapGet (m : List (SpanKey × (Nat × Nat))) (k : SpanKey) : Option (Nat × Nat) :=
  (m.find? (fun p => p.1 == k)).map Prod.snd

/-- Python `getattr(obj, attr)`: `AttributeError` when the attribute is
missing from the annotation mapping. -/
def getAttr (attrs : List (String × Nat)) (a : String) : Except PyErr Nat :=
  match attrs.find? (fun p => p.1 == a) with
  | some p => Except.ok p.2
  | none => Except.error PyErr.attributeError

/-- Values of all schema attributes read off one annotation mapping, in
schema order (the `for attr in attributes` loops). -/
def attrValues (attrs : List (String × Nat)) : List String → Except PyErr (List Nat)
  | [] => Except.ok []
  | a :: rest =>
    match getAttr attrs a with
    | Except.error e => Except.error e
    | Except.ok v =>
      match attrValues attrs rest with
      | Except.error e => Except.error e
      | Except.ok vs => Except.ok (v :: vs)

/-- Error-propagating left fold (the sequential Python loops). -/
def foldE {α β : Type} (f : β → α → Except PyErr β) : β → List α → Except PyErr β
  | b, [] => Except.ok b
  | b, a :: rest =>
    match f b a with
    | Except.error e => Except.error e
    | Except.ok b' => foldE f b' rest

/-- Append a span to the named layer of the document under construction
(`new_layer.add_span` / `span_parent.mark`). -/
def addSpanToLayer (layers : List MLayer) (name : String) (sp : MSpan) : List MLayer :=
  layers.map (fun l => if l.name = name then { l with spans := l.spans ++ [sp] } else l)

/-- Window filter shared by the plain and enveloping branches (`excerpt`
lines 52-60 and 75-83): with `trim_overlapping` the span is clipped to the
window and dropped when the clip is empty; without it the span is dropped
when it crosses a window boundary.  Returns the surviving (unclipped or
clipped) absolute interval. -/
def windowClip (start stop : Nat) (trim : Bool) (sp : MSpan) : Option (Nat × Nat) :=
  match trim with
  | true =>
    let s := max sp.start start
    let e := min sp.stop stop
    if e ≤ s then none else some (s, e)
  | false =>
    if sp.start < start ∨ stop < sp.stop then none else some (sp.start, sp.stop)

/-- Plain-layer span step (`excerpt` lines 74-88): window clipping or
dropping, offset remapping by `-start`, attribute copy from the old span. -/
def plainSpanStep (layerName : String) (attributes : List String)
    (start stop : Nat) (trim : Bool) (st : ExcState) (span : MSpan) :
    Except PyErr ExcState :=
  match windowClip start stop trim span with
  | none => Except.ok st
  | some iv =>
    match attrValues span.attrs attributes with
    | Except.error e => Except.error e
    | Except.ok vals =>
      let newIv : Nat × Nat := (iv.1 - start, iv.2 - start)
      let newSpan : MSpan := ⟨newIv.1, newIv.2, attributes.zip vals, [], none, []⟩
      Except.ok ⟨(SpanKey.span layerName span.start span.stop, newIv) :: st.mapSpans,
        st.spState, addSpanToLayer st.newLayers layerName newSpan⟩

/-- Body of the `for sp in span` loop of the ambiguous-attached branch
(`excerpt` lines 40-44), for the annotation `p.2` with index `p.1`: mark a
child span with the parent's remapped interval `iv`, copy the annotation's
attribute values onto it, record it in `map_spans`, and leave the loop
variable `sp` bound to the annotation. -/
def attachedAnnoStep (layerName : String) (attributes : List String)
    (pref iv : Nat × Nat) (st2 : ExcState) (p : Nat × List (String × Nat)) :
    Except PyErr ExcState :=
  match attrValues p.2 attributes with
  | Except.error e => Except.error e
  | Except.ok vals =>
    let newSpan : MSpan := ⟨iv.1, iv.2, attributes.zip vals, [], some iv, []⟩
    Except.ok ⟨(SpanKey.anno layerName pref.1 pref.2 p.1, iv) :: st2.mapSpans,
      some p.2, addSpanToLayer st2.newLayers layerName newSpan⟩

/-- Ambiguous-attached-layer span step (`excerpt` lines 37-44): when the
parent span survived, re-emit one child span per annotation `sp` with the
parent's remapped interval, record each annotation in `map_spans`, and leave
the loop variable `sp` bound to the last annotation processed. -/
def attachedSpanStep (layerName parentName : String) (attributes : List String)
    (st : ExcState) (span : MSpan) : Except PyErr ExcState :=
  match span.parentRef with
  | none => Except.ok st
  | some pref =>
    match mapGet st.mapSpans (SpanKey.span parentName pref.1 pref.2) with
    | none => Except.ok st
    | some newIv =>
      foldE (attachedAnnoStep layerName attributes pref newIv) st span.annos.enum

/-- Unambiguous-enveloping-layer span step (`excerpt` lines 51-69): window
clipping or dropping, regrouping of the already-remapped component spans, and
the attribute copy — which reads the variable `sp` (bound only in the
ambiguous-attached branch, line 67), raising `NameError` when no ambiguous
attached layer has run before and the attribute loop executes.  The rebuilt
enveloping span's own interval derives from its components (first component's
start, last component's end; `(0,0)` when no component survived). -/
def envelopingSpanStep (layerName envName : String) (attributes : List String)
    (start stop : Nat) (trim : Bool) (st : ExcState) (span : MSpan) :
    Except PyErr ExcState :=
  match windowClip start stop trim span with
  | none => Except.ok st
  | some _ =>
    let comps := span.components.filterMap
      (fun c => mapGet st.mapSpans (SpanKey.span envName c.1 c.2))
    let newIv : Nat × Nat :=
      ((comps.headD (0, 0)).1, (comps.getLastD (0, 0)).2)
    match st.spState with
    | none =>
      if attributes.isEmpty then
        Except.ok ⟨(SpanKey.span layerName span.start span.stop, newIv) :: st.mapSpans,
          st.spState, addSpanToLayer st.newLayers layerName ⟨newIv.1, newIv.2, [], [], none, comps⟩⟩
      else Except.error PyErr.nameError
    | some spAnno =>
      match attrValues spAnno attributes with
      | Except.error e => Except.error e
      | Except.ok vals =>
        Except.ok ⟨(SpanKey.span layerName span.start span.stop, newIv) :: st.mapSpans,
          st.spState,
          addSpanToLayer st.newLayers layerName ⟨newIv.1, newIv.2, attributes.zip vals, [], none, comps⟩⟩

/-- Is the layer retained by the `layers_to_keep` argument. -/
def keptBy (keep : Option (List String)) (l : MLayer) : Prop :=
  match keep with
  | none => True
  | some ks => l.name ∈ ks

instance (keep : Option (List String)) (l : MLayer) : Decidable (keptBy keep l) := by
  unfold keptBy
  cases keep <;> infer_instance

/-- One iteration of `excerpt`'s layer loop: skip non-kept layers, add the
empty copy of the layer to the new document, then dispatch on the layer shape
— ambiguous attached layers are processed, unambiguous attached layers raise
`NotImplementedError`, ambiguous enveloping and ambiguous plain layers raise
`NotImplementedError`, the other shapes process their spans. -/
def processLayer (start stop : Nat) (keep : Option (List String)) (trim : Bool)
    (st : ExcState) (layer : MLayer) : Except PyErr ExcState :=
  if keptBy keep layer then
    let st1 : ExcState := ⟨st.mapSpans, st.spState, st.newLayers ++ [{ layer with spans := [] }]⟩
    if layer.parent.isSome then
      if layer.ambiguous then
        foldE (attachedSpanStep layer.name (layer.parent.getD "") layer.attributes)
          st1 layer.spans
      else
        Except.error (PyErr.notImplemented ("not ambiguous layer with parent: " ++ layer.name))
    else if layer.enveloping.isSome then
      if layer.ambiguous then
        Except.error (PyErr.notImplemented ("ambiguous enveloping layer: " ++ layer.name))
      else
        foldE (envelopingSpanStep layer.name (layer.enveloping.getD "") layer.attributes
          start stop trim) st1 layer.spans
    else
      if layer.ambiguous then
        Except.error (PyErr.notImplemented ("ambiguous layer: " ++ layer.name))
      else
        foldE (plainSpanStep layer.name layer.attributes start stop trim) st1 layer.spans
  else Except.ok st

/-- Shallow embedding of `excerpt(text, start, end, layers_to_keep,
trim_overlapping)`: fold the layer loop over the document's layers and build
the new document over the sliced base text. -/
def excerpt (t : MText) (start stop : Nat) (keep : Option (List String)) (trim : Bool) :
    Except PyErr MText :=
  match foldE (processLayer start stop keep trim) ⟨[], none, []⟩ t.layers with
  | Except.error e => Except.error e
  | Except.ok st => Except.ok ⟨String.mk (strSlice t.text start stop), st.newLayers⟩

/-- A span passes the window filter of the plain/enveloping branches (is not
dropped by clipping-to-empty or boundary-crossing). -/
def survivesWindow (start stop : Nat) (trim : Bool) (sp : MSpan) : Prop :=
  (windowClip start stop trim sp).isSome

instance (start stop : Nat) (trim : Bool) (sp : MSpan) :
    Decidable (survivesWindow start stop trim sp) := by
  unfold survivesWindow
  infer_instance

/-- If one list element makes the step fail from every state, the fold fails. -/
theorem foldE_error_of_mem {α β : Type} (f : β → α → Except PyErr β) (a : α)
    (hf : ∀ b, ∃ e, f b a = Except.error e) :
    ∀ (l : List α), a ∈ l → ∀ b, ∃ e, foldE f b l = Except.error e := by
  intro l
  induction l with
  | nil => intro ha; cases ha
  | cons x xs ih =>
    intro ha b
    by_cases hax : a = x
    · subst hax
      rcases hf b with ⟨e, he⟩
      exact ⟨e, by simp [foldE, he]⟩
    · have ha' : a ∈ xs := by
        rcases List.mem_cons.mp ha with h | h
        · exact absurd h hax
        · exact h
      cases hfx : f b x with
      | error e => exact ⟨e, by simp [foldE, hfx]⟩
      | ok b1 =>
        rcases ih ha' b1 with ⟨e, he⟩
        exact ⟨e, by simp [foldE, hfx, he]⟩

/-- An invariant preserved by every successful step is preserved by the fold. -/
theorem foldE_preserve {α β : Type} (f : β → α → Except PyErr β) (P : β → Prop)
    (hf : ∀ b a, P b → ∀ b', f b a = Except.ok b' → P b') :
    ∀ (l : List α) (b b'), P b → foldE f b l = Except.ok b' → P b' := by
  intro l
  induction l with
  | nil =>
    intro b b' hP h
    simp only [foldE] at h
    cases h
    exact hP
  | cons x xs ih =>
    intro b b' hP h
    simp only [foldE] at h
    cases hfx : f b x with
    | error e => rw [hfx] at h; cases h
    | ok b1 =>
      rw [hfx] at h
      exact ih b1 b' (hf b x hP b1 hfx) h

/-- The plain-span step never touches the local variable `sp`. -/
theorem plainSpanStep_spState (ln : String) (attrs : List String)
    (start stop : Nat) (trim : Bool) (st : ExcState) (span : MSpan)
    (st' : ExcState) (h : plainSpanStep ln attrs start stop trim st span = Except.ok st') :
    st'.spState = st.spState := by
  simp only [plainSpanStep] at h
  cases hw : windowClip start stop trim span with
  | none => rw [hw] at h; cases h; rfl
  | some iv =>
    rw [hw] at h
    cases hv : attrValues span.attrs attrs with
    | error e => rw [hv] at h; cases h
    | ok vals => rw [hv] at h; cases h; rfl

/-- The enveloping-span step never changes the local variable `sp`. -/
theorem envelopingSpanStep_spState (ln en : String) (attrs : List String)
    (start stop : Nat) (trim : Bool) (st : ExcState) (span : MSpan)
    (st' : ExcState)
    (h : envelopingSpanStep ln en attrs start stop trim st span = Except.ok st') :
    st'.spState = st.spState := by
  simp only [envelopingSpanStep] at h
  repeat' split at h
  all_goals first
    | (cases h; rfl)
    | cases h

/-- A layer that is not an ambiguous attached layer leaves `sp` untouched
when it processes successfully. -/
theorem processLayer_spState (start stop : Nat) (keep : Option (List String))
    (trim : Bool) (st : ExcState) (L : MLayer) (st' : ExcState)
    (hna : ¬(L.parent.isSome ∧ L.ambiguous = true))
    (h : processLayer start stop keep trim st L = Except.ok st') :
    st'.spState = st.spState := by
  simp only [processLayer] at h
  split at h
  · split at h
    · split at h
      · rename_i hp ha
        exact absurd ⟨hp, ha⟩ hna
      · cases h
    · split at h
      · split at h
        · cases h
        · exact foldE_preserve _ (fun b => b.spState = st.spState)
            (fun b a hP b' hstep =>
              (envelopingSpanStep_spState _ _ _ _ _ _ b a b' hstep).trans hP)
            L.spans _ st' rfl h
      · split at h
        · cases h
        · exact foldE_preserve _ (fun b => b.spState = st.spState)
            (fun b a hP b' hstep =>
              (plainSpanStep_spState _ _ _ _ _ b a b' hstep).trans hP)
            L.spans _ st' rfl h
  · cases h; rfl

/-- A kept unambiguous attached layer raises `NotImplementedError`. -/
theorem processLayer_unamb_attached (start stop : Nat) (keep : Option (List String))
    (trim : Bool) (st : ExcState) (L : MLayer)
    (hk : keptBy keep L) (hp : L.parent.isSome = true) (ha : L.ambiguous = false) :
    processLayer start stop keep trim st L =
      Except.error (PyErr.notImplemented ("not ambiguous layer with parent: " ++ L.name)) := by
  simp only [processLayer, if_pos hk, hp, if_true, ha]
  simp

/-- A kept ambiguous plain layer raises `NotImplementedError`. -/
theorem processLayer_amb_plain (start stop : Nat) (keep : Option (List String))
    (trim : Bool) (st : ExcState) (L : MLayer)
    (hk : keptBy keep L) (hp : L.parent = none) (he : L.enveloping = none)
    (ha : L.ambiguous = true) :
    processLayer start stop keep trim st L =
      Except.error (PyErr.notImplemented ("ambiguous layer: " ++ L.name)) := by
  simp only [processLayer, if_pos hk, hp, he, ha]
  simp

/-- A span dropped by the window filter leaves the state untouched. -/
theorem envelopingSpanStep_skip (ln en : String) (attrs : List String)
    (start stop : Nat) (trim : Bool) (st : ExcState) (span : MSpan)
    (h : ¬ survivesWindow start stop trim span) :
    envelopingSpanStep ln en attrs start stop trim st span = Except.ok st := by
  unfold survivesWindow at h
  simp only [envelopingSpanStep]
  cases hw : windowClip start stop trim span with
  | none => rfl
  | some iv => rw [hw] at h; simp at h

/-- A surviving span of an enveloping layer with a non-empty attribute schema
raises `NameError` when the local variable `sp` is unbound. -/
theorem envelopingSpanStep_err (ln en : String) (attrs : List String)
    (start stop : Nat) (trim : Bool) (st : ExcState) (span : MSpan)
    (hs : survivesWindow start stop trim span) (hsp : st.spState = none)
    (ha : attrs ≠ []) :
    envelopingSpanStep ln en attrs start stop trim st span =
      Except.error PyErr.nameError := by
  unfold survivesWindow at hs
  simp only [envelopingSpanStep]
  cases hw : windowClip start stop trim span with
  | none => rw [hw] at hs; simp at hs
  | some iv =>
    rw [hsp]
    have hemp : attrs.isEmpty = false := by
      cases attrs
      · exact absurd rfl ha
      · rfl
    simp [hemp]

/-- The span fold of an enveloping layer fails when `sp` is unbound, the
schema is non-empty and some span survives the window. -/
theorem foldE_env_errors (ln en : String) (attrs : List String)
    (start stop : Nat) (trim : Bool) (ha : attrs ≠ []) :
    ∀ (spans : List MSpan) (st : ExcState), st.spState = none →
    (∃ sp ∈ spans, survivesWindow start stop trim sp) →
    ∃ e, foldE (envelopingSpanStep ln en attrs start stop trim) st spans =
      Except.error e := by
  intro spans
  induction spans with
  | nil =>
    intro st _ hex
    obtain ⟨sp, hm, _⟩ := hex
    cases hm
  | cons x xs ih =>
    intro st hsp hex
    obtain ⟨sp, hm, hs⟩ := hex
    by_cases hx : survivesWindow start stop trim x
    · exact ⟨PyErr.nameError,
        by simp [foldE, envelopingSpanStep_err ln en attrs start stop trim st x hx hsp ha]⟩
    · have hskip := envelopingSpanStep_skip ln en attrs start stop trim st x hx
      have hm' : sp ∈ xs := by
        rcases List.mem_cons.mp hm with h | h
        · subst h; exact absurd hs hx
        · exact h
      rcases ih st hsp ⟨sp, hm', hs⟩ with ⟨e, he⟩
      exact ⟨e, by simp [foldE, hskip, he]⟩

/-- A kept unambiguous enveloping layer with a non-empty attribute schema and
a span surviving the window makes the layer step fail when `sp` is unbound. -/
theorem processLayer_env_errors (start stop : Nat) (keep : Option (List String))
    (trim : Bool) (st : ExcState) (L : MLayer)
    (hk : keptBy keep L) (hp : L.parent = none) (he : L.enveloping.isSome = true)
    (ha : L.ambiguous = false) (hattrs : L.attributes ≠ [])
    (hsp : st.spState = none)
    (hs : ∃ sp ∈ L.spans, survivesWindow start stop trim sp) :
    ∃ e, processLayer start stop keep trim st L = Except.error e := by
  have hp' : L.parent.isSome = false := by rw [hp]; rfl
  simp only [processLayer, if_pos hk, hp', Bool.false_eq_true, if_false, he,
    if_true, ha]
  exact foldE_env_errors L.name (L.enveloping.getD "") L.attributes start stop trim
    hattrs L.spans _ hsp hs

/-- C9: for every document with a kept ambiguous plain layer `L` (no parent,
not enveloping, `ambiguous = true`), `excerpt` fails with an error and
produces no excerpt, and `L`'s own layer step is precisely the
`raise NotImplementedError('ambiguous layer: ...')` of the plain branch (so
the excerpt error is that `NotImplementedError` whenever no earlier kept
layer fails first). -/
theorem excerpt_ambiguous_plain_errors (t : MText) (start stop : Nat)
    (keep : Option (List String)) (trim : Bool) (L : MLayer)
    (hL : L ∈ t.layers) (hk : keptBy keep L) (hp : L.parent = none)
    (he : L.enveloping = none) (ha : L.ambiguous = true) :
    (∃ e, excerpt t start stop keep trim = Except.error e) ∧
    (∀ st, processLayer start stop keep trim st L =
      Except.error (PyErr.notImplemented ("ambiguous layer: " ++ L.name))) := by
  have hf : ∀ b, ∃ e, processLayer start stop keep trim b L = Except.error e :=
    fun b => ⟨_, processLayer_amb_plain start stop keep trim b L hk hp he ha⟩
  refine ⟨?_, fun st => processLayer_amb_plain start stop keep trim st L hk hp he ha⟩
  rcases foldE_error_of_mem (processLayer start stop keep trim) L hf t.layers hL
    ⟨[], none, []⟩ with ⟨e, hee⟩
  exact ⟨e, by simp [excerpt, hee]⟩

/-- Witness for C9 at a concrete document with an ambiguous plain layer. -/
theorem excerpt_ambiguous_plain_errors_witness :
    (∃ e, excerpt ⟨"abcde", [⟨"amb", [], none, none, true, []⟩]⟩ 0 5 none false =
      Except.error e) ∧
    (∀ st, processLayer 0 5 none false st ⟨"amb", [], none, none, true, []⟩ =
      Except.error (PyErr.notImplemented ("ambiguous layer: " ++ "amb"))) :=
  excerpt_ambiguous_plain_errors ⟨"abcde", [⟨"amb", [], none, none, true, []⟩]⟩
    0 5 none false ⟨"amb", [], none, none, true, []⟩ (by decide) (by decide) rfl rfl rfl

/-- Document with one unambiguous attached layer (`morph`, parent `words`). -/
def docUnambAttached : MText :=
  ⟨"abcde",
    [⟨"morph", ["a"], some "words", none, false,
      [⟨0, 4, [("a", 1)], [], some (0, 4), []⟩]⟩]⟩

/-- C1 counterexample: a document with an unambiguous attached layer is not
supported — `excerpt` raises `NotImplementedError` (line 46 of splitting.py),
while the claim says unambiguous attached layers are the supported case. -/
theorem excerpt_attached_claim_counterexample :
    excerpt docUnambAttached 0 5 none false =
      Except.error (PyErr.notImplemented "not ambiguous layer with parent: morph") := by
  rfl

/-- Document whose only layer is an unambiguous enveloping layer with a
declared attribute but no spans. -/
def docEnvNoSpans : MText :=
  ⟨"abcde", [⟨"sent", ["a"], none, some "words", false, []⟩]⟩

/-- C10 counterexample: the claim quantifies over every document whose kept
layers include an unambiguous enveloping layer with an attribute and no
ambiguous attached layer; for this document (whose enveloping layer has no
spans) the attribute-copy line is never reached and `excerpt` succeeds
instead of failing. -/
theorem excerpt_enveloping_claim_counterexample :
    excerpt docEnvNoSpans 0 5 none false =
      Except.ok ⟨"abcde", [⟨"sent", ["a"], none, some "words", false, []⟩]⟩ := by
  rfl

/-- Document with a plain `words` layer and an unambiguous enveloping `sent`
layer carrying an attribute and one span inside the window. -/
def docEnvWithSpan : MText :=
  ⟨"abcde",
    [⟨"words", [], none, none, false, [⟨0, 2, [], [], none, []⟩]⟩,
     ⟨"sent", ["a"], none, some "words", false, [⟨0, 2, [], [], none, [(0, 2)]⟩]⟩]⟩

/-! Gap detection (`GapTagger`).  The implementation is not among the provided
source files (only its test, src/estnltk/tests/test_taggers/test_gaps_tagging/
test_gap_tagger.py, is), so the algorithm is modelled from the spec. -/

/-- Insertion into a list of intervals sorted ascending by `(start, end)`. -/
def insertIv (p : Nat × Nat) : List (Nat × Nat) → List (Nat × Nat)
  | [] => [p]
  | q :: rest =>
    if p.1 < q.1 ∨ (p.1 = q.1 ∧ p.2 ≤ q.2) then p :: q :: rest
    else q :: insertIv p rest

/-- Sort a list of intervals ascending by `(start, end)`. -/
def sortIvs (l : List (Nat × Nat)) : List (Nat × Nat) := l.foldr insertIv []

/-- Walk of the complement: emit the uncovered interval before each covered
interval, advance the cursor past it, and close with the tail gap up to the
text length. -/
def gapsWalk (limit : Nat) : List (Nat × Nat) → Nat → List (Nat × Nat)
  | [], cur => if cur < limit then [(cur, limit)] else []
  | (s, e) :: rest, cur =>
    (if cur < s then [(cur, s)] else []) ++ gapsWalk limit rest (max cur e)

/-- Modelled from the spec: the `GapTagger` span computation (the tagger's
implementation lives in `estnltk.taggers`, not among the provided source
files; only its test is).  All source-layer intervals are merged into one
sorted list and the complement of their union over `[0, textLen)` is walked,
emitting each non-empty uncovered interval. -/
def gapTaggerSpans (textLen : Nat) (layersSpans : List (List (Nat × Nat))) :
    List (Nat × Nat) :=
  gapsWalk textLen (sortIvs layersSpans.flatten) 0

/-- C4: on the text "Üks kaks kolm neli viis kuus seitse." (36 characters)
with source layers `[(4,8),(9,13),(24,28)]` and `[(4,8),(9,18),(35,36)]`, the
gap tagger produces exactly `[(0,4),(8,9),(18,24),(28,35)]`, in ascending
order and pairwise disjoint. -/
theorem gap_tagger_scenario_a :
    gapTaggerSpans 36 [[(4, 8), (9, 13), (24, 28)], [(4, 8), (9, 18), (35, 36)]]
      = [(0, 4), (8, 9), (18, 24), (28, 35)] ∧
    List.Pairwise (fun a b : Nat × Nat => a.2 ≤ b.1)
      [(0, 4), (8, 9), (18, 24), (28, 35)] ∧
    "Üks kaks kolm neli viis kuus seitse.".length = 36 := by
  refine ⟨by decide, by decide, ?_⟩
  rfl

/-- Value of one attribute read off an annotation mapping (`getattr(sp, attr)`;
the default 0 is only reached when the attribute is absent, a case the lemmas
below exclude). -/
def annoVal (anno : List (String × Nat)) (a : String) : Nat :=
  ((anno.find? (fun p => p.1 == a)).map Prod.snd).getD 0

/-- Child span re-emitted for one annotation of an ambiguous attached span:
the parent's remapped interval carrying the annotation's attribute values. -/
def childSpan (iv : Nat × Nat) (attributes : List String)
    (anno : List (String × Nat)) : MSpan :=
  ⟨iv.1, iv.2, attributes.zip (attributes.map (annoVal anno)), [], some iv, []⟩

/-- When every schema attribute is present on the annotation, the attribute
reads succeed and yield the looked-up values. -/
theorem attrValues_ok (anno : List (String × Nat)) :
    ∀ (attributes : List String),
    (∀ a ∈ attributes, (anno.find? (fun p => p.1 == a)).isSome = true) →
    attrValues anno attributes = Except.ok (attributes.map (annoVal anno)) := by
  intro attributes
  induction attributes with
  | nil => intro _; rfl
  | cons a rest ih =>
    intro h
    obtain ⟨q, hq⟩ := Option.isSome_iff_exists.mp (h a (List.mem_cons_self a rest))
    simp only [attrValues, getAttr, hq, ih (fun b hb => h b (List.mem_cons_of_mem _ hb)),
      List.map_cons]
    simp [annoVal, hq]

theorem getLast?_elim_shift {α β : Type} (a : α) (l : List α) (d : β) (f : α → β) :
    l.getLast?.elim (f a) f = (a :: l).getLast?.elim d f := by
  cases l with
  | nil => rfl
  | cons b bs =>
    rw [List.getLast?_cons_cons]
    cases hbs : (b :: bs).getLast? with
    | none => exact absurd hbs (by simp)
    | some x => rfl

/-- The annotation loop of the ambiguous-attached branch: starting from any
state and enumeration offset, it succeeds and appends exactly one child span
per annotation (in order), records each annotation in `map_spans`, and leaves
`sp` bound to the last annotation (unchanged when there is none). -/
theorem attachedAnnoFold (ln : String) (attributes : List String) (pref iv : Nat × Nat) :
    ∀ (annos : List (List (String × Nat))),
    (∀ anno ∈ annos, ∀ a ∈ attributes, (anno.find? (fun p => p.1 == a)).isSome = true) →
    ∀ (st : ExcState) (k : Nat),
    foldE (attachedAnnoStep ln attributes pref iv) st (annos.enumFrom k) =
      Except.ok ⟨((annos.enumFrom k).map
          (fun p => (SpanKey.anno ln pref.1 pref.2 p.1, iv))).reverse ++ st.mapSpans,
        annos.getLast?.elim st.spState some,
        annos.foldl (fun ls anno => addSpanToLayer ls ln (childSpan iv attributes anno))
          st.newLayers⟩ := by
  intro annos
  induction annos with
  | nil => intro _ st k; rfl
  | cons a annos ih =>
    intro hall st k
    have hv := attrValues_ok a attributes (hall a (List.mem_cons_self a annos))
    have hstep : attachedAnnoStep ln attributes pref iv st (k, a) =
        Except.ok ⟨(SpanKey.anno ln pref.1 pref.2 k, iv) :: st.mapSpans, some a,
          addSpanToLayer st.newLayers ln (childSpan iv attributes a)⟩ := by
      simp only [attachedAnnoStep]
      rw [hv]
      rfl
    show foldE (attachedAnnoStep ln attributes pref iv) st ((k, a) :: annos.enumFrom (k + 1))
      = _
    simp only [foldE, hstep]
    rw [ih (fun x hx b hb => hall x (List.mem_cons_of_mem _ hx) b hb) _ (k + 1)]
    congr 1
    refine congrArg₂ (fun x y => ExcState.mk x y _) ?_ ?_
    · show ((annos.enumFrom (k + 1)).map
          (fun p => (SpanKey.anno ln pref.1 pref.2 p.1, iv))).reverse ++
          ((SpanKey.anno ln pref.1 pref.2 k, iv) :: st.mapSpans) =
        (((k, a) :: annos.enumFrom (k + 1)).map
          (fun p => (SpanKey.anno ln pref.1 pref.2 p.1, iv))).reverse ++ st.mapSpans
      simp
    · exact getLast?_elim_shift a annos st.spState some

/-- The ambiguous-attached span step re-emits one child span per annotation
when the parent span survived. -/
theorem attachedSpanStep_reemits (ln pn : String) (attributes : List String)
    (st : ExcState) (span : MSpan) (pref iv : Nat × Nat)
    (hp : span.parentRef = some pref)
    (hiv : mapGet st.mapSpans (SpanKey.span pn pref.1 pref.2) = some iv)
    (hall : ∀ anno ∈ span.annos, ∀ a ∈ attributes,
      (anno.find? (fun p => p.1 == a)).isSome = true) :
    attachedSpanStep ln pn attributes st span = Except.ok
      ⟨((span.annos.enum).map
          (fun p => (SpanKey.anno ln pref.1 pref.2 p.1, iv))).reverse ++ st.mapSpans,
        span.annos.getLast?.elim st.spState some,
        span.annos.foldl
          (fun ls anno => addSpanToLayer ls ln (childSpan iv attributes anno))
          st.newLayers⟩ := by
  simp only [attachedSpanStep, hp, hiv]
  exact attachedAnnoFold ln attributes pref iv span.annos hall st 0

/-- The ambiguous-attached span step is a no-op for a span whose parent did
not survive (no parent reference, or the parent span absent from `map_spans`). -/
theorem attachedSpanStep_skip (ln pn : String) (attributes : List String)
    (st : ExcState) (span : MSpan)
    (h : span.parentRef = none ∨ (∃ pref, span.parentRef = some pref ∧
      mapGet st.mapSpans (SpanKey.span pn pref.1 pref.2) = none)) :
    attachedSpanStep ln pn attributes st span = Except.ok st := by
  rcases h with h | ⟨pref, hp, hiv⟩
  · simp only [attachedSpanStep, h]
  · simp only [attachedSpanStep, hp, hiv]

/-- If every step succeeds from every state, the fold succeeds. -/
theorem foldE_ok_of_steps {α β : Type} (f : β → α → Except PyErr β) :
    ∀ (l : List α), (∀ b, ∀ a ∈ l, ∃ b', f b a = Except.ok b') →
    ∀ b, ∃ b', foldE f b l = Except.ok b' := by
  intro l
  induction l with
  | nil => intro _ b; exact ⟨b, rfl⟩
  | cons x xs ih =>
    intro h b
    obtain ⟨b1, hb1⟩ := h b x (List.mem_cons_self x xs)
    obtain ⟨b', hb'⟩ := ih (fun c a ha => h c a (List.mem_cons_of_mem _ ha)) b1
    exact ⟨b', by simp [foldE, hb1, hb']⟩

/-- The ambiguous-attached span step always succeeds when all schema
attributes are present on every annotation. -/
theorem attachedSpanStep_ok (ln pn : String) (attributes : List String)
    (st : ExcState) (span : MSpan)
    (hall : ∀ anno ∈ span.annos, ∀ a ∈ attributes,
      (anno.find? (fun p => p.1 == a)).isSome = true) :
    ∃ st', attachedSpanStep ln pn attributes st span = Except.ok st' := by
  cases hp : span.parentRef with
  | none => exact ⟨st, attachedSpanStep_skip ln pn attributes st span (Or.inl hp)⟩
  | some pref =>
    cases hiv : mapGet st.mapSpans (SpanKey.span pn pref.1 pref.2) with
    | none =>
      exact ⟨st, attachedSpanStep_skip ln pn attributes st span (Or.inr ⟨pref, hp, hiv⟩)⟩
    | some iv =>
      exact ⟨_, attachedSpanStep_reemits ln pn attributes st span pref iv hp hiv hall⟩

/-- A non-kept layer is skipped, leaving the state unchanged. -/
theorem processLayer_not_kept (start stop : Nat) (keep : Option (List String))
    (trim : Bool) (st : ExcState) (L : MLayer) (h : ¬ keptBy keep L) :
    processLayer start stop keep trim st L = Except.ok st := by
  simp only [processLayer, if_neg h]

/-- C1 (amended): for every document and window, a kept unambiguous attached
layer makes `excerpt` fail with no excerpt, that layer's own step being
precisely the `NotImplementedError` of the attached branch; and attached
layers are supported when ambiguous: for every state and kept ambiguous
attached layer (with the schema attributes present on its annotations) the
layer step succeeds, and per span the branch re-emits exactly one child span
per annotation — carrying the parent span's remapped interval and the
annotation's attribute values — when the parent survived, and nothing when
it did not. -/
theorem excerpt_attached_amended :
    (∀ (t : MText) (start stop : Nat) (keep : Option (List String)) (trim : Bool)
      (L : MLayer), L ∈ t.layers → keptBy keep L → L.parent.isSome = true →
      L.ambiguous = false →
      (∃ e, excerpt t start stop keep trim = Except.error e) ∧
      (∀ st, processLayer start stop keep trim st L =
        Except.error (PyErr.notImplemented ("not ambiguous layer with parent: " ++ L.name))))
    ∧ (∀ (start stop : Nat) (keep : Option (List String)) (trim : Bool)
        (st : ExcState) (L : MLayer), keptBy keep L → L.parent.isSome = true →
        L.ambiguous = true →
        (∀ sp ∈ L.spans, ∀ anno ∈ sp.annos, ∀ a ∈ L.attributes,
          (anno.find? (fun p => p.1 == a)).isSome = true) →
        ∃ st', processLayer start stop keep trim st L = Except.ok st')
    ∧ (∀ (ln pn : String) (attributes : List String) (st : ExcState) (span : MSpan)
        (pref iv : Nat × Nat), span.parentRef = some pref →
        mapGet st.mapSpans (SpanKey.span pn pref.1 pref.2) = some iv →
        (∀ anno ∈ span.annos, ∀ a ∈ attributes,
          (anno.find? (fun p => p.1 == a)).isSome = true) →
        attachedSpanStep ln pn attributes st span = Except.ok
          ⟨((span.annos.enum).map
              (fun p => (SpanKey.anno ln pref.1 pref.2 p.1, iv))).reverse ++ st.mapSpans,
            span.annos.getLast?.elim st.spState some,
            span.annos.foldl
              (fun ls anno => addSpanToLayer ls ln (childSpan iv attributes anno))
              st.newLayers⟩)
    ∧ (∀ (ln pn : String) (attributes : List String) (st : ExcState) (span : MSpan),
        (span.parentRef = none ∨ (∃ pref, span.parentRef = some pref ∧
          mapGet st.mapSpans (SpanKey.span pn pref.1 pref.2) = none)) →
        attachedSpanStep ln pn attributes st span = Except.ok st) := by
  refine ⟨?_, ?_, ?_, ?_⟩
  · intro t start stop keep trim L hL hk hp ha
    have hf : ∀ b, ∃ e, processLayer start stop keep trim b L = Except.error e :=
      fun b => ⟨_, processLayer_unamb_attached start stop keep trim b L hk hp ha⟩
    refine ⟨?_, fun st => processLayer_unamb_attached start stop keep trim st L hk hp ha⟩
    rcases foldE_error_of_mem (processLayer start stop keep trim) L hf t.layers hL
      ⟨[], none, []⟩ with ⟨e, hee⟩
    exact ⟨e, by simp [excerpt, hee]⟩
  · intro start stop keep trim st L hk hp ha hall
    simp only [processLayer, if_pos hk, hp, if_true, ha]
    exact foldE_ok_of_steps _ L.spans
      (fun b sp hsp => attachedSpanStep_ok L.name (L.parent.getD "") L.attributes b sp
        (hall sp hsp)) _
  · intro ln pn attributes st span pref iv hp hiv hall
    exact attachedSpanStep_reemits ln pn attributes st span pref iv hp hiv hall
  · intro ln pn attributes st span h
    exact attachedSpanStep_skip ln pn attributes st span h

/-- State with a surviving parent span remapped with a non-zero offset
(`(2,4)` in the old document, `(0,2)` in the excerpt). -/
def exAttachedState : ExcState :=
  ⟨[(SpanKey.span "words" 2 4, (0, 2))], none,
    [⟨"morph", ["a"], some "words", none, true, []⟩]⟩

/-- Ambiguous attached span with two annotations over the parent `(2,4)`. -/
def exAttachedSpan : MSpan := ⟨2, 4, [], [[("a", 7)], [("a", 8)]], some (2, 4), []⟩

/-- Witness for the amended C1 theorem: the error half at a concrete document
with an unambiguous attached layer, and the re-emission half at a concrete
state whose parent span was remapped from `(2,4)` to `(0,2)`. -/
theorem excerpt_attached_amended_witness :
    (∃ e, excerpt docUnambAttached 0 5 none false = Except.error e) ∧
    attachedSpanStep "morph" "words" ["a"] exAttachedState exAttachedSpan =
      Except.ok
        ⟨((exAttachedSpan.annos.enum).map
            (fun p => (SpanKey.anno "morph" 2 4 p.1, (0, 2)))).reverse ++
            exAttachedState.mapSpans,
          exAttachedSpan.annos.getLast?.elim exAttachedState.spState some,
          exAttachedSpan.annos.foldl
            (fun ls anno => addSpanToLayer ls "morph" (childSpan (0, 2) ["a"] anno))
            exAttachedState.newLayers⟩ :=
  ⟨(excerpt_attached_amended.1 docUnambAttached 0 5 none false
      ⟨"morph", ["a"], some "words", none, false,
        [⟨0, 4, [("a", 1)], [], some (0, 4), []⟩]⟩
      (by decide) (by decide) rfl rfl).1,
   excerpt_attached_amended.2.2.1 "morph" "words" ["a"] exAttachedState exAttachedSpan
     (2, 4) (0, 2) rfl rfl (by decide)⟩

/-- C10 (amended): for every document whose kept layers include an unambiguous
enveloping layer with at least one declared attribute and at least one span
surviving the window filter, such that no kept ambiguous attached layer is
processed earlier (precedes it in the document's layer order — so the local
variable `sp` is still unbound when the enveloping layer is reached), the
attribute-copy step reads the unbound name `sp` and `excerpt` fails instead
of returning the new document. -/
theorem excerpt_enveloping_unbound_sp (t : MText) (start stop : Nat)
    (keep : Option (List String)) (trim : Bool) (pre post : List MLayer) (L : MLayer)
    (hsplit : t.layers = pre ++ L :: post)
    (hnoamb : ∀ M ∈ pre, keptBy keep M → ¬(M.parent.isSome = true ∧ M.ambiguous = true))
    (hk : keptBy keep L) (hp : L.parent = none) (he : L.enveloping.isSome = true)
    (ha : L.ambiguous = false) (hattrs : L.attributes ≠ [])
    (hs : ∃ sp ∈ L.spans, survivesWindow start stop trim sp) :
    ∃ e, excerpt t start stop keep trim = Except.error e := by
  have main : ∀ (pre' : List MLayer) (st : ExcState), st.spState = none →
      (∀ M ∈ pre', keptBy keep M → ¬(M.parent.isSome = true ∧ M.ambiguous = true)) →
      ∃ e, foldE (processLayer start stop keep trim) st (pre' ++ L :: post) =
        Except.error e := by
    intro pre'
    induction pre' with
    | nil =>
      intro st hsp _
      rcases processLayer_env_errors start stop keep trim st L hk hp he ha hattrs hsp hs
        with ⟨e, hee⟩
      exact ⟨e, by simp [foldE, hee]⟩
    | cons x xs ih =>
      intro st hsp hna
      by_cases hkx : keptBy keep x
      · cases hstep : processLayer start stop keep trim st x with
        | error e => exact ⟨e, by simp [foldE, hstep]⟩
        | ok st' =>
          have hsp' : st'.spState = none := by
            rw [processLayer_spState start stop keep trim st x st'
              (hna x (List.mem_cons_self x xs) hkx) hstep]
            exact hsp
          rcases ih st' hsp' (fun M hM hkM => hna M (List.mem_cons_of_mem _ hM) hkM)
            with ⟨e, hee⟩
          exact ⟨e, by simp [foldE, hstep, hee]⟩
      · have hstep := processLayer_not_kept start stop keep trim st x hkx
        rcases ih st hsp (fun M hM hkM => hna M (List.mem_cons_of_mem _ hM) hkM)
          with ⟨e, hee⟩
        exact ⟨e, by simp [foldE, hstep, hee]⟩
  rcases main pre ⟨[], none, []⟩ rfl hnoamb with ⟨e, hee⟩
  rw [← hsplit] at hee
  exact ⟨e, by simp [excerpt, hee]⟩

/-- Witness for the amended C10 theorem at a concrete document: a kept plain
`words` layer precedes the enveloping `sent` layer, which has an attribute
and a surviving span. -/
theorem excerpt_enveloping_unbound_sp_witness :
    ∃ e, excerpt docEnvWithSpan 0 5 none false = Except.error e :=
  excerpt_enveloping_unbound_sp docEnvWithSpan 0 5 none false
    [⟨"words", [], none, none, false, [⟨0, 2, [], [], none, []⟩]⟩] []
    ⟨"sent", ["a"], none, some "words", false, [⟨0, 2, [], [], none, [(0, 2)]⟩]⟩
    rfl (by decide) (by decide) rfl rfl rfl (by decide) (by decide)
